import Mathlib

/-!
Shallow embedding of the xz streaming decoder adapter (reader.go) and its lzma
engine binding (the cgo file).  The external lzma engine is a black box; its
behaviour is supplied by oracles: one status code for decoder initialization and,
for each coding step, how much input the engine consumes, how much output it
produces, and which status code it returns.  Buffer windows are modelled as an
optional abstract pointer offset plus a remaining length, exactly the fields the
binding manipulates.  Ghost fields count release, coding and source-read
operations so that resource and no-interaction properties can be stated.
-/

namespace Xz

/-- Status codes returned by the lzma engine, from the binding's Return type. -/
inductive Return
  | Ok
  | StreamEnd
  | NoCheck
  | UnsupportedCheck
  | GetCheck
  | MemError
  | MemLimitError
  | FormatError
  | OptionsError
  | DataError
  | BufError
  | ProgError
  | SeekNeeded
deriving DecidableEq

/-- Coding actions passed to the engine, from the binding's Action type. -/
inductive Action
  | Run
  | SyncFlush
  | FullFlush
  | Finish
  | FullBarrier
deriving DecidableEq

/-- Window bookkeeping fields of the C lzma_stream struct: input and output
windows, each a pointer (an abstract offset; none models NULL) and a remaining
length. -/
structure LzmaMem where
  next_in : Option Nat
  avail_in : Nat
  next_out : Option Nat
  avail_out : Nat
deriving DecidableEq

/-- Alias of the LZMA_STREAM_INIT macro: every window field zero or NULL. -/
def stream_init : LzmaMem := ⟨none, 0, none, 0⟩

/-- Black-box behaviour of one lzma_code call, supplied by an oracle: how many
input bytes the engine wants to consume, how many output bytes it wants to
produce, and the status code it returns.  Consumption and production are clamped
to the current windows when the step is applied. -/
structure CStep where
  consume : Nat
  produce : Nat
  ret : Return
deriving DecidableEq

/-- One lzma_code call: consumes and produces within the current windows,
advancing each window pointer by the amount consumed or produced.  Returns the
updated window fields, the status code, and the number of output bytes actually
produced (placed in the caller's buffer). -/
def lzma_code (m : LzmaMem) (s : CStep) : LzmaMem × Return × Nat :=
  (⟨m.next_in.map (fun x => x + min s.consume m.avail_in),
    m.avail_in - min s.consume m.avail_in,
    m.next_out.map (fun x => x + min s.produce m.avail_out),
    m.avail_out - min s.produce m.avail_out⟩,
   s.ret, min s.produce m.avail_out)

/-- The C wrapper safe_lzma_code: run lzma_code, then null out any window whose
remaining length is now zero, because the engine advances pointers and a fully
consumed window's pointer is one past the end of the original slice. -/
def safe_lzma_code (m : LzmaMem) (s : CStep) : LzmaMem × Return × Nat :=
  (⟨if (lzma_code m s).1.avail_in = 0 then none else (lzma_code m s).1.next_in,
    (lzma_code m s).1.avail_in,
    if (lzma_code m s).1.avail_out = 0 then none else (lzma_code m s).1.next_out,
    (lzma_code m s).1.avail_out⟩,
   (lzma_code m s).2)

/-- Go error values the reader can observe or produce.  The reader only compares
upstream source errors with nil and io.EOF, so non-EOF source errors are
abstracted by a numeric tag. -/
inductive Err
  | eof
  | srcErr (code : Nat)
  | initErr (code : Return)
  | lzmaErr (code : Return)
  | readerClosed
deriving DecidableEq

/-- Signal accompanying one upstream source read: nothing, the distinguished
io.EOF exhaustion signal, or an opaque non-EOF failure. -/
inductive SrcSignal
  | eof
  | fail (code : Nat)
deriving DecidableEq

/-- Result of one upstream src.Read into the staging buffer: the byte count and
the accompanying signal.  In Go the count is at most the staging buffer size. -/
structure SrcRes where
  n : Nat
  err : Option SrcSignal
deriving DecidableEq

/-- Size of the staging buffer allocated by NewReader. -/
def defaultBufferSize : Nat := 32 * 1024

/-- State of the xz reader together with the two oracles that drive it (remaining
upstream read results and remaining engine step behaviours) and ghost
instrumentation: how often the engine was released, how often a coding step ran
and with which actions, how often the source was read, and whether any engine
operation was ever invoked on a nil stream handle. -/
structure RState where
  srcQ : List SrcRes
  engQ : List CStep
  stream : Option LzmaMem
  action : Action
  lastErr : Option Err
  releases : Nat
  engineCalls : Nat
  codeActions : List Action
  srcReads : Nat
  nilDeref : Bool
deriving DecidableEq

/-- NewStreamDecoder from the binding: the engine's accept or reject decision for
the configuration is the oracle argument; on a code other than Ok the returned
handle is nil together with an init error. -/
def NewStreamDecoder (initRet : Return) : Option LzmaMem × Option Err :=
  if initRet = Return.Ok then (some stream_init, none)
  else (none, some (Err.initErr initRet))

/-- Modelled from the spec: the release operation of the Engine Binding (the
lzma Stream Close method called by reader.go is not under src; section 4.1
Release frees engine-internal structures and is not itself idempotent).  It
operates on the engine handle, so invoking it on a nil handle is a nil
dereference; on a live handle the invocation is counted by the releases ghost
field. -/
def streamClose (r : RState) : RState :=
  match r.stream with
  | none => { r with nilDeref := true }
  | some _ => { r with releases := r.releases + 1 }

/-- NewReader: builds the reader state with action Run; a failed decoder
initialization leaves a nil stream handle and stores the init error in lastErr. -/
def NewReader (srcQ : List SrcRes) (engQ : List CStep) (initRet : Return) : RState :=
  { srcQ := srcQ
    engQ := engQ
    stream := (NewStreamDecoder initRet).1
    action := Action.Run
    lastErr := (NewStreamDecoder initRet).2
    releases := 0
    engineCalls := 0
    codeActions := []
    srcReads := 0
    nilDeref := false }

/-- Result of one Read call: the returned pair of byte count and error (none when
an oracle ran out before the call could return), the ghost count of bytes the
engine placed in the caller's buffer during this call, and the reader state
afterwards. -/
structure ReadOut where
  out : Option (Nat × Option Err)
  placed : Nat
  final : RState
deriving DecidableEq

/-- Refill phase of one loop iteration of reader.Read: when the input window is
exhausted, pull one result from the upstream source into the staging buffer.  A
non-EOF error is recorded as the terminal condition and returned at once with a
zero byte count; io.EOF switches the action to Finish; in the EOF and no-error
cases the read prefix of the staging buffer (possibly zero length) becomes the
input window.  Returns either the finished ReadOut or the window and state to
drive the engine with. -/
def refill (m : LzmaMem) (engR : List CStep) (placed : Nat) (r : RState) :
    ReadOut ⊕ (LzmaMem × RState) :=
  if m.avail_in = 0 then
    match r.srcQ with
    | [] => Sum.inl ⟨none, placed, { r with engQ := engR, stream := some m }⟩
    | res :: srest =>
      match res.err with
      | some (SrcSignal.fail c) =>
        Sum.inl ⟨some (0, some (Err.srcErr c)), placed,
          { r with
              srcQ := srest
              srcReads := r.srcReads + 1
              lastErr := some (Err.srcErr c)
              engQ := engR
              stream := some m }⟩
      | some SrcSignal.eof =>
        Sum.inr ({ m with next_in := some 0, avail_in := res.n },
          { r with srcQ := srest, srcReads := r.srcReads + 1, action := Action.Finish })
      | none =>
        Sum.inr ({ m with next_in := some 0, avail_in := res.n },
          { r with srcQ := srest, srcReads := r.srcReads + 1 })
  else Sum.inr (m, r)

/-- Driving loop of reader.Read, with the engine step oracle as fuel: each
iteration refills the input window if it is exhausted, drives one coding step
with the current action, computes written as the caller buffer length minus the
remaining output capacity, and branches on the status code exactly as the Go
switch does: Ok with a full output window returns written with no error, Ok with
capacity remaining loops, StreamEnd records io.EOF and releases, and every other
code records an lzma error and releases. -/
def readLoop (lenP : Nat) : List CStep → LzmaMem → Nat → RState → ReadOut
  | [], m, placed, r => ⟨none, placed, { r with engQ := [], stream := some m }⟩
  | step :: rest, m, placed, r =>
    match refill m (step :: rest) placed r with
    | Sum.inl out => out
    | Sum.inr (m1, r1) =>
      if (safe_lzma_code m1 step).2.1 = Return.Ok then
        if (safe_lzma_code m1 step).1.avail_out = 0 then
          ⟨some (lenP - (safe_lzma_code m1 step).1.avail_out, none),
            placed + (safe_lzma_code m1 step).2.2,
            { r1 with
                engineCalls := r1.engineCalls + 1
                codeActions := r1.codeActions ++ [r1.action]
                engQ := rest
                stream := some (safe_lzma_code m1 step).1 }⟩
        else
          readLoop lenP rest (safe_lzma_code m1 step).1
            (placed + (safe_lzma_code m1 step).2.2)
            { r1 with
                engineCalls := r1.engineCalls + 1
                codeActions := r1.codeActions ++ [r1.action] }
      else if (safe_lzma_code m1 step).2.1 = Return.StreamEnd then
        ⟨some (lenP - (safe_lzma_code m1 step).1.avail_out, some Err.eof),
          placed + (safe_lzma_code m1 step).2.2,
          streamClose { r1 with
            engineCalls := r1.engineCalls + 1
            codeActions := r1.codeActions ++ [r1.action]
            lastErr := some Err.eof
            engQ := rest
            stream := some (safe_lzma_code m1 step).1 }⟩
      else
        ⟨some (lenP - (safe_lzma_code m1 step).1.avail_out,
            some (Err.lzmaErr ((safe_lzma_code m1 step).2.1))),
          placed + (safe_lzma_code m1 step).2.2,
          streamClose { r1 with
            engineCalls := r1.engineCalls + 1
            codeActions := r1.codeActions ++ [r1.action]
            lastErr := some (Err.lzmaErr ((safe_lzma_code m1 step).2.1))
            engQ := rest
            stream := some (safe_lzma_code m1 step).1 }⟩

/-- reader.Read: replay a recorded terminal condition (or serve a zero length
request) immediately with no engine or source interaction; otherwise set the
output window to the caller's buffer and run the driving loop.  Setting the
output window dereferences the stream handle, so a nil handle at that point
would be a nil dereference. -/
def Read (r : RState) (lenP : Nat) : ReadOut :=
  if r.lastErr ≠ none ∨ lenP = 0 then ⟨some (0, r.lastErr), 0, r⟩
  else
    match r.stream with
    | none => ⟨some (0, none), 0, { r with nilDeref := true }⟩
    | some m =>
      readLoop lenP r.engQ { m with next_out := some 0, avail_out := lenP } 0 r

/-- reader.Close: when no terminal condition is recorded yet, record the
synthetic reader-closed error and release the engine; otherwise do nothing.  In
both cases return nil. -/
def Close (r : RState) : Option Err × RState :=
  if r.lastErr = none then
    (none, streamClose { r with lastErr := some Err.readerClosed })
  else (none, r)

/-- One external operation on the reader. -/
inductive Op
  | read (lenP : Nat)
  | close
deriving DecidableEq

/-- Applies one operation, keeping only the resulting state. -/
def applyOp (r : RState) : Op → RState
  | Op.read lenP => (Read r lenP).final
  | Op.close => (Close r).2

/-- Runs a sequence of operations from a state. -/
def runOps : RState → List Op → RState
  | r, [] => r
  | r, o :: os => runOps (applyOp r o) os

/-- Release bookkeeping invariant of reachable reader states: while no terminal
condition is recorded nothing has been released and the handle is live, and the
engine is released at most once overall. -/
def StateInv (r : RState) : Prop :=
  (r.lastErr = none → r.releases = 0 ∧ r.stream ≠ none) ∧ r.releases ≤ 1

/-- Invariant of a reader whose decoder initialization failed with the given
code: the init error is sticky, the handle is nil, and no engine, release or
source operation ever happens, in particular no nil dereference. -/
def InitFailInv (code : Return) (r : RState) : Prop :=
  r.lastErr = some (Err.initErr code) ∧ r.stream = none ∧ r.engineCalls = 0 ∧
    r.srcReads = 0 ∧ r.releases = 0 ∧ r.nilDeref = false

/-- Projection: the status code of a safe coding step is the oracle's code. -/
theorem safe_lzma_code_ret (m : LzmaMem) (s : CStep) :
    (safe_lzma_code m s).2.1 = s.ret := rfl

/-- Projection: bytes produced by a safe coding step. -/
theorem safe_lzma_code_produced (m : LzmaMem) (s : CStep) :
    (safe_lzma_code m s).2.2 = min s.produce m.avail_out := rfl

/-- Projection: remaining output capacity after a safe coding step. -/
theorem safe_lzma_code_avail_out (m : LzmaMem) (s : CStep) :
    (safe_lzma_code m s).1.avail_out = m.avail_out - min s.produce m.avail_out := rfl

/-- Projection: remaining input after a safe coding step. -/
theorem safe_lzma_code_avail_in (m : LzmaMem) (s : CStep) :
    (safe_lzma_code m s).1.avail_in = m.avail_in - min s.consume m.avail_in := rfl

/-- Releasing never changes the recorded error. -/
theorem streamClose_lastErr (r : RState) : (streamClose r).lastErr = r.lastErr := by
  unfold streamClose; split <;> rfl

/-- Releasing never changes the handle. -/
theorem streamClose_stream (r : RState) : (streamClose r).stream = r.stream := by
  unfold streamClose; split <;> rfl

/-- Releasing never changes the action. -/
theorem streamClose_action (r : RState) : (streamClose r).action = r.action := by
  unfold streamClose; split <;> rfl

/-- Releasing never changes the pending source results. -/
theorem streamClose_srcQ (r : RState) : (streamClose r).srcQ = r.srcQ := by
  unfold streamClose; split <;> rfl

/-- Releasing a live handle increments the release count. -/
theorem streamClose_releases_of_live (r : RState) (h : r.stream ≠ none) :
    (streamClose r).releases = r.releases + 1 := by
  unfold streamClose
  cases hs : r.stream with
  | none => exact absurd hs h
  | some m => rfl

/-- Replay lemma: a Read in a state with a recorded terminal condition returns
zero bytes with that condition and leaves the state untouched. -/
theorem read_stuck (r : RState) (lenP : Nat) (e : Err) (h : r.lastErr = some e) :
    Read r lenP = ⟨some (0, some e), 0, r⟩ := by
  unfold Read
  rw [h]
  simp

/-- Shape of an early exit of the refill phase: the byte count ghost is
unchanged and the call either did not return (source oracle exhausted) or
returned zero bytes with a source error. -/
theorem refill_inl_shape (m : LzmaMem) (engR : List CStep) (placed : Nat) (r : RState)
    (o : ReadOut) (h : refill m engR placed r = Sum.inl o) :
    o.placed = placed ∧ (o.out = none ∨ ∃ c, o.out = some (0, some (Err.srcErr c))) := by
  unfold refill at h
  split at h
  · split at h
    · cases h; exact ⟨rfl, Or.inl rfl⟩
    · split at h
      · cases h; exact ⟨rfl, Or.inr ⟨_, rfl⟩⟩
      · cases h
      · cases h
  · cases h

/-- Ghost and state fields of an early exit of the refill phase. -/
theorem refill_inl_final (m : LzmaMem) (engR : List CStep) (placed : Nat) (r : RState)
    (o : ReadOut) (h : refill m engR placed r = Sum.inl o) :
    o.final.releases = r.releases ∧ o.final.stream = some m ∧
      o.final.engineCalls = r.engineCalls ∧ o.final.action = r.action ∧
      o.final.nilDeref = r.nilDeref ∧ o.final.codeActions = r.codeActions ∧
      (o.final.lastErr = r.lastErr ∨ ∃ c, o.final.lastErr = some (Err.srcErr c)) := by
  unfold refill at h
  split at h
  · split at h
    · cases h; exact ⟨rfl, rfl, rfl, rfl, rfl, rfl, Or.inl rfl⟩
    · split at h
      · cases h; exact ⟨rfl, rfl, rfl, rfl, rfl, rfl, Or.inr ⟨_, rfl⟩⟩
      · cases h
      · cases h
  · cases h

/-- State fields after a refill that hands control to the coding step: the
terminal condition, counters and handle are untouched, the output window is
unchanged, and the action is either unchanged or switched to Finish. -/
theorem refill_inr_final (m : LzmaMem) (engR : List CStep) (placed : Nat) (r : RState)
    (m1 : LzmaMem) (r1 : RState) (h : refill m engR placed r = Sum.inr (m1, r1)) :
    r1.lastErr = r.lastErr ∧ r1.releases = r.releases ∧ r1.stream = r.stream ∧
      r1.engineCalls = r.engineCalls ∧ r1.nilDeref = r.nilDeref ∧
      r1.codeActions = r.codeActions ∧ m1.avail_out = m.avail_out ∧
      (r1.action = r.action ∨ r1.action = Action.Finish) := by
  unfold refill at h
  split at h
  · split at h
    · cases h
    · split at h
      · cases h
      · cases h; exact ⟨rfl, rfl, rfl, rfl, rfl, rfl, rfl, Or.inr rfl⟩
      · cases h; exact ⟨rfl, rfl, rfl, rfl, rfl, rfl, rfl, Or.inl rfl⟩
  · cases h; exact ⟨rfl, rfl, rfl, rfl, rfl, rfl, rfl, Or.inl rfl⟩

/-- Loop invariant for release bookkeeping: starting an iteration with no
terminal condition and no release yet, the loop finishes with at most one
release, with no release at all if it still has no terminal condition, and with
a live handle. -/
theorem readLoop_release (lenP : Nat) (engQ : List CStep) :
    ∀ (m : LzmaMem) (placed : Nat) (r : RState), r.lastErr = none → r.releases = 0 →
      ((readLoop lenP engQ m placed r).final.lastErr = none →
        (readLoop lenP engQ m placed r).final.releases = 0) ∧
      (readLoop lenP engQ m placed r).final.releases ≤ 1 ∧
      (readLoop lenP engQ m placed r).final.stream ≠ none := by
  induction engQ with
  | nil =>
    intro m placed r hle hrel
    simp only [readLoop]
    exact ⟨fun _ => hrel, by omega, by simp⟩
  | cons step rest ih =>
    intro m placed r hle hrel
    rw [readLoop]
    split
    · next o hre =>
      obtain ⟨ho1, ho2, _, _, _, _, _⟩ := refill_inl_final m (step :: rest) placed r o hre
      exact ⟨fun _ => by omega, by omega, by rw [ho2]; simp⟩
    · next m1 r1 hre =>
      obtain ⟨h1, h2, h3, _, _, _, _, _⟩ := refill_inr_final m (step :: rest) placed r m1 r1 hre
      split
      · split
        · refine ⟨fun _ => by simp; omega, by simp; omega, by simp⟩
        · exact ih _ _ _ (by simp [h1, hle]) (by simp [h2, hrel])
      · split
        · refine ⟨fun hc => ?_, ?_, ?_⟩
          · rw [streamClose_lastErr] at hc; simp at hc
          · have : ({ r1 with
                engineCalls := r1.engineCalls + 1
                codeActions := r1.codeActions ++ [r1.action]
                lastErr := some Err.eof
                engQ := rest
                stream := some (safe_lzma_code m1 step).1 } : RState).stream ≠ none := by simp
            rw [streamClose_releases_of_live _ this]
            simp [h2, hrel]
          · simp [streamClose_stream]
        · refine ⟨fun hc => ?_, ?_, ?_⟩
          · rw [streamClose_lastErr] at hc; simp at hc
          · have : ({ r1 with
                engineCalls := r1.engineCalls + 1
                codeActions := r1.codeActions ++ [r1.action]
                lastErr := some (Err.lzmaErr ((safe_lzma_code m1 step).2.1))
                engQ := rest
                stream := some (safe_lzma_code m1 step).1 } : RState).stream ≠ none := by simp
            rw [streamClose_releases_of_live _ this]
            simp [h2, hrel]
          · simp [streamClose_stream]

/-- Pending source results after an early exit of the refill phase: unchanged or
advanced by one. -/
theorem refill_inl_srcQ (m : LzmaMem) (engR : List CStep) (placed : Nat) (r : RState)
    (o : ReadOut) (h : refill m engR placed r = Sum.inl o) :
    o.final.srcQ = r.srcQ ∨ ∃ res srest, r.srcQ = res :: srest ∧ o.final.srcQ = srest := by
  unfold refill at h
  by_cases hin : m.avail_in = 0
  · cases hq : r.srcQ with
    | nil => simp only [hin, if_true, hq] at h; cases h; exact Or.inl rfl
    | cons res srest =>
      cases herr : res.err with
      | none => simp only [hin, if_true, hq, herr] at h; cases h
      | some sig =>
        cases sig with
        | eof => simp only [hin, if_true, hq, herr] at h; cases h
        | fail c =>
          simp only [hin, if_true, hq, herr] at h
          cases h
          exact Or.inr ⟨res, srest, rfl, rfl⟩
  · rw [if_neg hin] at h; cases h

/-- When no pending source result carries the io.EOF signal, a refill that hands
control to the coding step keeps the action unchanged and the property is
preserved on the remaining source results. -/
theorem refill_inr_noEof (m : LzmaMem) (engR : List CStep) (placed : Nat) (r : RState)
    (m1 : LzmaMem) (r1 : RState) (h : refill m engR placed r = Sum.inr (m1, r1))
    (hno : ∀ s ∈ r.srcQ, s.err ≠ some SrcSignal.eof) :
    r1.action = r.action ∧ ∀ s ∈ r1.srcQ, s.err ≠ some SrcSignal.eof := by
  unfold refill at h
  by_cases hin : m.avail_in = 0
  · cases hq : r.srcQ with
    | nil => simp only [hin, if_true, hq] at h; cases h
    | cons res srest =>
      cases herr : res.err with
      | none =>
        simp only [hin, if_true, hq, herr] at h
        cases h
        exact ⟨rfl, fun s hs => hno s (by rw [hq]; exact List.mem_cons_of_mem res hs)⟩
      | some sig =>
        cases sig with
        | eof =>
          exact absurd herr (hno res (by rw [hq]; exact List.mem_cons_self res srest))
        | fail c => simp only [hin, if_true, hq, herr] at h; cases h
  · rw [if_neg hin] at h; cases h; exact ⟨rfl, hno⟩

/-- Loop invariant: once the action is Finish it stays Finish for the rest of
the loop. -/
theorem readLoop_action_finish (lenP : Nat) (engQ : List CStep) :
    ∀ (m : LzmaMem) (placed : Nat) (r : RState), r.action = Action.Finish →
      (readLoop lenP engQ m placed r).final.action = Action.Finish := by
  induction engQ with
  | nil => intro m placed r ha; simpa only [readLoop] using ha
  | cons step rest ih =>
    intro m placed r ha
    rw [readLoop]
    split
    · next o hre =>
      obtain ⟨_, _, _, ho4, _, _, _⟩ := refill_inl_final m (step :: rest) placed r o hre
      rw [ho4]; exact ha
    · next m1 r1 hre =>
      obtain ⟨_, _, _, _, _, _, _, hact⟩ := refill_inr_final m (step :: rest) placed r m1 r1 hre
      have hr1 : r1.action = Action.Finish := by
        rcases hact with h | h
        · rw [h, ha]
        · exact h
      split
      · split
        · simpa using hr1
        · exact ih _ _ _ (by simpa using hr1)
      · split
        · rw [streamClose_action]; simpa using hr1
        · rw [streamClose_action]; simpa using hr1

/-- Loop invariant: when no pending source result carries the io.EOF signal the
action never changes and the property persists. -/
theorem readLoop_action_noEof (lenP : Nat) (engQ : List CStep) :
    ∀ (m : LzmaMem) (placed : Nat) (r : RState),
      (∀ s ∈ r.srcQ, s.err ≠ some SrcSignal.eof) →
      (readLoop lenP engQ m placed r).final.action = r.action ∧
        ∀ s ∈ (readLoop lenP engQ m placed r).final.srcQ, s.err ≠ some SrcSignal.eof := by
  induction engQ with
  | nil => intro m placed r hno; exact ⟨rfl, hno⟩
  | cons step rest ih =>
    intro m placed r hno
    rw [readLoop]
    split
    · next o hre =>
      obtain ⟨_, _, _, ho4, _, _, _⟩ := refill_inl_final m (step :: rest) placed r o hre
      refine ⟨ho4, fun s hs => ?_⟩
      rcases refill_inl_srcQ m (step :: rest) placed r o hre with hq | ⟨res, srest, hq1, hq2⟩
      · exact hno s (hq ▸ hs)
      · exact hno s (by rw [hq1]; exact List.mem_cons_of_mem res (hq2 ▸ hs))
    · next m1 r1 hre =>
      obtain ⟨hact, hno1⟩ := refill_inr_noEof m (step :: rest) placed r m1 r1 hre hno
      split
      · split
        · exact ⟨by simpa using hact, by simpa using hno1⟩
        · obtain ⟨ih1, ih2⟩ := ih (safe_lzma_code m1 step).1
            (placed + (safe_lzma_code m1 step).2.2)
            { r1 with
                engineCalls := r1.engineCalls + 1
                codeActions := r1.codeActions ++ [r1.action] } hno1
          exact ⟨by rw [ih1]; simpa using hact, ih2⟩
      · split
        · rw [streamClose_action, streamClose_srcQ]
          exact ⟨by simpa using hact, by simpa using hno1⟩
        · rw [streamClose_action, streamClose_srcQ]
          exact ⟨by simpa using hact, by simpa using hno1⟩

/-- Loop invariant for the returned byte count: whenever the loop returns, the
returned count equals the total number of bytes the engine placed in the
caller's buffer during this call, except on the upstream source error path,
which always returns zero. -/
theorem readLoop_written (lenP : Nat) (engQ : List CStep) :
    ∀ (m : LzmaMem) (placed : Nat) (r : RState), placed + m.avail_out = lenP →
      ∀ (w : Nat) (e : Option Err),
        (readLoop lenP engQ m placed r).out = some (w, e) →
        ((∀ c, e ≠ some (Err.srcErr c)) → w = (readLoop lenP engQ m placed r).placed) ∧
        (∀ c, e = some (Err.srcErr c) → w = 0) := by
  induction engQ with
  | nil => intro m placed r hpl w e hout; cases hout
  | cons step rest ih =>
    intro m placed r hpl w e hout
    rw [readLoop] at hout ⊢
    revert hout
    split
    · next o hre =>
      intro hout
      obtain ⟨hp, hsh⟩ := refill_inl_shape m (step :: rest) placed r o hre
      rcases hsh with hn | ⟨c, hc⟩
      · rw [hn] at hout; cases hout
      · rw [hc] at hout
        cases hout
        exact ⟨fun hne => absurd rfl (hne c), fun _ _ => rfl⟩
    · next m1 r1 hre =>
      intro hout
      obtain ⟨_, _, _, _, _, _, hao, _⟩ := refill_inr_final m (step :: rest) placed r m1 r1 hre
      have hkey : placed + (safe_lzma_code m1 step).2.2 +
          (safe_lzma_code m1 step).1.avail_out = lenP := by
        rw [safe_lzma_code_produced, safe_lzma_code_avail_out, hao]
        omega
      revert hout
      split
      · split
        · intro hout
          cases hout
          refine ⟨fun _ => ?_, fun c hc => by cases hc⟩
          simp only []
          omega
        · intro hout
          exact ih _ _ _ hkey w e hout
      · split
        · intro hout
          cases hout
          refine ⟨fun _ => ?_, fun c hc => by cases hc⟩
          simp only []
          omega
        · intro hout
          cases hout
          refine ⟨fun _ => ?_, fun c hc => by simp at hc⟩
          simp only []
          omega

/-- A freshly opened reader satisfies the release invariant for any
initialization outcome. -/
theorem newReader_stateInv (srcQ : List SrcRes) (engQ : List CStep) (initRet : Return) :
    StateInv (NewReader srcQ engQ initRet) := by
  constructor
  · intro h
    refine ⟨rfl, ?_⟩
    by_cases hi : initRet = Return.Ok
    · simp [NewReader, NewStreamDecoder, hi]
    · simp [NewReader, NewStreamDecoder, hi] at h
  · show (0 : Nat) ≤ 1
    omega

/-- Every operation preserves the release invariant. -/
theorem applyOp_stateInv (r : RState) (o : Op) (h : StateInv r) : StateInv (applyOp r o) := by
  obtain ⟨h1, h2⟩ := h
  cases o with
  | read lenP =>
    show StateInv (Read r lenP).final
    unfold Read
    by_cases hc : r.lastErr ≠ none ∨ lenP = 0
    · rw [if_pos hc]; exact ⟨h1, h2⟩
    · rw [if_neg hc]
      push_neg at hc
      obtain ⟨hle, hlp⟩ := hc
      obtain ⟨hrel0, hstream⟩ := h1 hle
      split
      · next hs => exact absurd hs hstream
      · next m hs =>
        obtain ⟨rl1, rl2, rl3⟩ := readLoop_release lenP r.engQ
          { m with next_out := some 0, avail_out := lenP } 0 r hle hrel0
        exact ⟨fun hl => ⟨rl1 hl, rl3⟩, rl2⟩
  | close =>
    show StateInv (Close r).2
    unfold Close
    by_cases hle : r.lastErr = none
    · rw [if_pos hle]
      obtain ⟨hrel0, hstream⟩ := h1 hle
      have hs : ({ r with lastErr := some Err.readerClosed } : RState).stream ≠ none := hstream
      constructor
      · intro hl
        rw [streamClose_lastErr] at hl
        simp at hl
      · rw [streamClose_releases_of_live _ hs]
        simp only []
        omega
    · rw [if_neg hle]; exact ⟨h1, h2⟩

/-- The release invariant holds along any sequence of operations. -/
theorem runOps_stateInv (r : RState) (ops : List Op) (h : StateInv r) :
    StateInv (runOps r ops) := by
  induction ops generalizing r with
  | nil => exact h
  | cons o os ih => exact ih _ (applyOp_stateInv r o h)

/-- A reader whose initialization failed satisfies the init-failure invariant. -/
theorem newReader_initFail (srcQ : List SrcRes) (engQ : List CStep) (initRet : Return)
    (h : initRet ≠ Return.Ok) : InitFailInv initRet (NewReader srcQ engQ initRet) := by
  unfold InitFailInv NewReader NewStreamDecoder
  rw [if_neg h]
  exact ⟨rfl, rfl, rfl, rfl, rfl, rfl⟩

/-- Every operation preserves the init-failure invariant: the sticky init error
makes Read return untouched and makes Close a no-op. -/
theorem applyOp_initFail (code : Return) (r : RState) (o : Op) (h : InitFailInv code r) :
    InitFailInv code (applyOp r o) := by
  obtain ⟨h1, h2, h3, h4, h5, h6⟩ := h
  cases o with
  | read lenP =>
    show InitFailInv code (Read r lenP).final
    rw [read_stuck r lenP _ h1]
    exact ⟨h1, h2, h3, h4, h5, h6⟩
  | close =>
    show InitFailInv code (Close r).2
    unfold Close
    rw [if_neg (by rw [h1]; simp)]
    exact ⟨h1, h2, h3, h4, h5, h6⟩

/-- The init-failure invariant holds along any sequence of operations. -/
theorem runOps_initFail (code : Return) (r : RState) (ops : List Op)
    (h : InitFailInv code r) : InitFailInv code (runOps r ops) := by
  induction ops generalizing r with
  | nil => exact h
  | cons o os ih => exact ih _ (applyOp_initFail code r o h)

/-- Every operation preserves a Finish action. -/
theorem applyOp_action_finish (r : RState) (o : Op) (h : r.action = Action.Finish) :
    (applyOp r o).action = Action.Finish := by
  cases o with
  | read lenP =>
    show (Read r lenP).final.action = _
    unfold Read
    by_cases hc : r.lastErr ≠ none ∨ lenP = 0
    · rw [if_pos hc]; exact h
    · rw [if_neg hc]
      split
      · exact h
      · exact readLoop_action_finish _ _ _ _ _ h
  | close =>
    show (Close r).2.action = _
    unfold Close
    by_cases hle : r.lastErr = none
    · rw [if_pos hle, streamClose_action]; exact h
    · rw [if_neg hle]; exact h

/-- A Finish action persists along any sequence of operations. -/
theorem runOps_action_finish (r : RState) (ops : List Op) (h : r.action = Action.Finish) :
    (runOps r ops).action = Action.Finish := by
  induction ops generalizing r with
  | nil => exact h
  | cons o os ih => exact ih _ (applyOp_action_finish r o h)

/-- When no pending source result carries the io.EOF signal, no operation ever
changes the action, and the property persists. -/
theorem applyOp_action_noEof (r : RState) (o : Op)
    (hno : ∀ s ∈ r.srcQ, s.err ≠ some SrcSignal.eof) :
    (applyOp r o).action = r.action ∧
      ∀ s ∈ (applyOp r o).srcQ, s.err ≠ some SrcSignal.eof := by
  cases o with
  | read lenP =>
    show (Read r lenP).final.action = r.action ∧
      ∀ s ∈ (Read r lenP).final.srcQ, s.err ≠ some SrcSignal.eof
    unfold Read
    by_cases hc : r.lastErr ≠ none ∨ lenP = 0
    · rw [if_pos hc]; exact ⟨rfl, hno⟩
    · rw [if_neg hc]
      split
      · exact ⟨rfl, hno⟩
      · exact readLoop_action_noEof _ _ _ _ _ hno
  | close =>
    show (Close r).2.action = r.action ∧
      ∀ s ∈ (Close r).2.srcQ, s.err ≠ some SrcSignal.eof
    unfold Close
    by_cases hle : r.lastErr = none
    · rw [if_pos hle, streamClose_action, streamClose_srcQ]; exact ⟨rfl, hno⟩
    · rw [if_neg hle]; exact ⟨rfl, hno⟩

/-- Without an io.EOF signal from the source, the action never changes along any
sequence of operations. -/
theorem runOps_action_noEof (r : RState) (ops : List Op)
    (hno : ∀ s ∈ r.srcQ, s.err ≠ some SrcSignal.eof) :
    (runOps r ops).action = r.action := by
  induction ops generalizing r with
  | nil => rfl
  | cons o os ih =>
    obtain ⟨ha, hp⟩ := applyOp_action_noEof r o hno
    rw [runOps]
    rw [ih (applyOp r o) hp, ha]

/-- C1, amended: whenever a Read call returns, the returned byte count equals
the number of bytes the engine placed in the caller's buffer during this call
for every termination except the upstream source error path (end of stream,
engine fatal status, full buffer, degenerate and replayed calls all report the
bytes placed); a call terminated by a fresh upstream source error returns a
count of zero regardless of the bytes already placed during the call. -/
theorem read_written_matches_placed (r : RState) (lenP w : Nat) (e : Option Err)
    (hout : (Read r lenP).out = some (w, e)) :
    ((∀ c, e ≠ some (Err.srcErr c)) → w = (Read r lenP).placed) ∧
    (r.lastErr = none → ∀ c, e = some (Err.srcErr c) → w = 0) := by
  revert hout
  unfold Read
  by_cases hc : r.lastErr ≠ none ∨ lenP = 0
  · rw [if_pos hc]
    intro hout
    cases hout
    exact ⟨fun _ => rfl, fun _ _ _ => rfl⟩
  · rw [if_neg hc]
    push_neg at hc
    obtain ⟨hle, hlp⟩ := hc
    split
    · intro hout
      cases hout
      exact ⟨fun _ => rfl, fun _ _ _ => rfl⟩
    · next m hs =>
      intro hout
      obtain ⟨w1, w2⟩ := readLoop_written lenP r.engQ
        { m with next_out := some 0, avail_out := lenP } 0 r (by simp) w e hout
      exact ⟨w1, fun _ => w2⟩

/-- C1, counterexample to the claim as stated: the source yields five bytes and
then fails with a non-EOF error; the engine's first step consumes them and
places one byte with status Ok into a two-byte caller buffer.  The Read call
that then hits the source error returns a byte count of zero together with the
error, although one byte was placed in the caller's buffer during this call. -/
theorem read_discards_partial_on_source_error :
    (Read (NewReader [⟨5, none⟩, ⟨0, some (SrcSignal.fail 3)⟩]
        [⟨5, 1, Return.Ok⟩, ⟨0, 0, Return.Ok⟩] Return.Ok) 2).out
      = some (0, some (Err.srcErr 3)) ∧
    (Read (NewReader [⟨5, none⟩, ⟨0, some (SrcSignal.fail 3)⟩]
        [⟨5, 1, Return.Ok⟩, ⟨0, 0, Return.Ok⟩] Return.Ok) 2).placed = 1 ∧
    (0 : Nat) ≠ 1 := by decide

/-- C1, witness: at an end-of-stream termination the reported count (two bytes)
equals the bytes placed during the call. -/
theorem read_written_matches_placed_witness :
    (2 : Nat) =
      (Read (NewReader [⟨3, some SrcSignal.eof⟩] [⟨3, 2, Return.StreamEnd⟩] Return.Ok)
        10).placed :=
  (read_written_matches_placed
    (NewReader [⟨3, some SrcSignal.eof⟩] [⟨3, 2, Return.StreamEnd⟩] Return.Ok)
    10 2 (some Err.eof) (by decide)).1 (by simp)

/-- C2, at the failing input: when the upstream source fails with a non-EOF
error, the Read call records the terminal condition and returns it, but performs
no release; and since Close and Read are no-ops afterwards, the engine handle is
never released on this path, contradicting release-on-record. -/
theorem source_error_skips_engine_release :
    (Read (NewReader [⟨0, some (SrcSignal.fail 7)⟩] [⟨0, 0, Return.Ok⟩] Return.Ok) 1).out
      = some (0, some (Err.srcErr 7)) ∧
    (Read (NewReader [⟨0, some (SrcSignal.fail 7)⟩] [⟨0, 0, Return.Ok⟩]
        Return.Ok) 1).final.lastErr = some (Err.srcErr 7) ∧
    (Read (NewReader [⟨0, some (SrcSignal.fail 7)⟩] [⟨0, 0, Return.Ok⟩]
        Return.Ok) 1).final.releases = 0 ∧
    (runOps (Read (NewReader [⟨0, some (SrcSignal.fail 7)⟩] [⟨0, 0, Return.Ok⟩]
        Return.Ok) 1).final [Op.close, Op.read 4, Op.close]).releases = 0 := by decide

/-- C3: once a terminal condition is recorded, every Read returns zero bytes
with that same condition and leaves the whole reader state untouched, so in
particular no engine operation and no upstream source read happens. -/
theorem read_after_terminal_is_absorbing (r : RState) (lenP : Nat) (e : Err)
    (h : r.lastErr = some e) :
    Read r lenP = ⟨some (0, some e), 0, r⟩ :=
  read_stuck r lenP e h

/-- C3, witness: a Read after a stream that already ended replays the end
condition with zero bytes and an unchanged state. -/
theorem read_after_terminal_is_absorbing_witness :
    Read (Read (NewReader [⟨3, some SrcSignal.eof⟩] [⟨3, 2, Return.StreamEnd⟩]
        Return.Ok) 10).final 5 =
      ⟨some (0, some Err.eof), 0,
        (Read (NewReader [⟨3, some SrcSignal.eof⟩] [⟨3, 2, Return.StreamEnd⟩]
          Return.Ok) 10).final⟩ :=
  read_after_terminal_is_absorbing
    (Read (NewReader [⟨3, some SrcSignal.eof⟩] [⟨3, 2, Return.StreamEnd⟩]
      Return.Ok) 10).final 5 Err.eof (by decide)

/-- C4: opening never fails; when decoder initialization fails the reader is
still constructed, and after any sequence of operations every Read returns zero
bytes with exactly the initialization error, with no engine call and no source
read ever having happened. -/
theorem newReader_init_failure_replayed (srcQ : List SrcRes) (engQ : List CStep)
    (initRet : Return) (ops : List Op) (lenP : Nat) (h : initRet ≠ Return.Ok) :
    Read (runOps (NewReader srcQ engQ initRet) ops) lenP =
      ⟨some (0, some (Err.initErr initRet)), 0,
        runOps (NewReader srcQ engQ initRet) ops⟩ ∧
    (runOps (NewReader srcQ engQ initRet) ops).engineCalls = 0 ∧
    (runOps (NewReader srcQ engQ initRet) ops).srcReads = 0 := by
  obtain ⟨h1, h2, h3, h4, h5, h6⟩ :=
    runOps_initFail initRet _ ops (newReader_initFail srcQ engQ initRet h)
  exact ⟨read_stuck _ lenP _ h1, h3, h4⟩

/-- C4, witness: with a memory error at initialization, after a Read and a Close
the next Read still returns exactly the initialization error. -/
theorem newReader_init_failure_replayed_witness :
    Read (runOps (NewReader [⟨1, none⟩] [⟨1, 1, Return.Ok⟩] Return.MemError)
        [Op.read 2, Op.close]) 2 =
      ⟨some (0, some (Err.initErr Return.MemError)), 0,
        runOps (NewReader [⟨1, none⟩] [⟨1, 1, Return.Ok⟩] Return.MemError)
          [Op.read 2, Op.close]⟩ :=
  (newReader_init_failure_replayed [⟨1, none⟩] [⟨1, 1, Return.Ok⟩] Return.MemError
    [Op.read 2, Op.close] 2 (by decide)).1

/-- C8: after every safe coding step, a window whose remaining length is zero
has its pointer reference nulled, for the output window and the input window
alike, so an advanced one-past-the-end pointer never survives the step. -/
theorem safe_lzma_code_nulls_empty_windows (m : LzmaMem) (s : CStep) :
    ((safe_lzma_code m s).1.avail_out = 0 → (safe_lzma_code m s).1.next_out = none) ∧
    ((safe_lzma_code m s).1.avail_in = 0 → (safe_lzma_code m s).1.next_in = none) := by
  constructor
  · intro h
    have h2 : (lzma_code m s).1.avail_out = 0 := h
    show (if (lzma_code m s).1.avail_out = 0 then none else (lzma_code m s).1.next_out) = none
    rw [if_pos h2]
  · intro h
    have h2 : (lzma_code m s).1.avail_in = 0 := h
    show (if (lzma_code m s).1.avail_in = 0 then none else (lzma_code m s).1.next_in) = none
    rw [if_pos h2]

/-- C8, witness: a step that consumes the whole one-byte input window and fills
the whole one-byte output window leaves both pointers nulled. -/
theorem safe_lzma_code_nulls_empty_windows_witness :
    (safe_lzma_code ⟨some 0, 1, some 0, 1⟩ ⟨1, 1, Return.Ok⟩).1.next_out = none ∧
    (safe_lzma_code ⟨some 0, 1, some 0, 1⟩ ⟨1, 1, Return.Ok⟩).1.next_in = none :=
  ⟨(safe_lzma_code_nulls_empty_windows ⟨some 0, 1, some 0, 1⟩ ⟨1, 1, Return.Ok⟩).1 rfl,
   (safe_lzma_code_nulls_empty_windows ⟨some 0, 1, some 0, 1⟩ ⟨1, 1, Return.Ok⟩).2 rfl⟩

/-- C10: when decoder initialization fails, the stored handle is nil, and along
every sequence of Read and Close operations no engine operation is ever invoked
on it: no coding step runs, no release is attempted, no nil dereference happens,
and the recorded error stays the initialization error. -/
theorem init_failure_no_nil_dereference (srcQ : List SrcRes) (engQ : List CStep)
    (initRet : Return) (ops : List Op) (h : initRet ≠ Return.Ok) :
    (runOps (NewReader srcQ engQ initRet) ops).stream = none ∧
    (runOps (NewReader srcQ engQ initRet) ops).nilDeref = false ∧
    (runOps (NewReader srcQ engQ initRet) ops).engineCalls = 0 ∧
    (runOps (NewReader srcQ engQ initRet) ops).releases = 0 ∧
    (runOps (NewReader srcQ engQ initRet) ops).lastErr = some (Err.initErr initRet) := by
  obtain ⟨h1, h2, h3, h4, h5, h6⟩ :=
    runOps_initFail initRet _ ops (newReader_initFail srcQ engQ initRet h)
  exact ⟨h2, h6, h3, h5, h1⟩

/-- C10, witness: an options error at initialization followed by reads and
closes never dereferences the nil handle and never calls the engine. -/
theorem init_failure_no_nil_dereference_witness :
    (runOps (NewReader [⟨2, none⟩] [⟨2, 1, Return.Ok⟩] Return.OptionsError)
      [Op.read 1, Op.close, Op.read 0, Op.close]).stream = none ∧
    (runOps (NewReader [⟨2, none⟩] [⟨2, 1, Return.Ok⟩] Return.OptionsError)
      [Op.read 1, Op.close, Op.read 0, Op.close]).nilDeref = false :=
  ⟨(init_failure_no_nil_dereference [⟨2, none⟩] [⟨2, 1, Return.Ok⟩] Return.OptionsError
      [Op.read 1, Op.close, Op.read 0, Op.close] (by decide)).1,
   (init_failure_no_nil_dereference [⟨2, none⟩] [⟨2, 1, Return.Ok⟩] Return.OptionsError
      [Op.read 1, Op.close, Op.read 0, Op.close] (by decide)).2.1⟩

/-- C5: in a loop iteration with input available, the written value is the
caller buffer length minus the output window's remaining capacity; a step
returning Ok with the output window full makes Read return that value with no
error immediately, leaving the remaining engine steps undriven, while a step
returning Ok with capacity remaining continues the loop. -/
theorem readLoop_written_and_ok_branches (lenP : Nat) (step : CStep) (rest : List CStep)
    (m : LzmaMem) (placed : Nat) (r : RState) (hin : m.avail_in ≠ 0)
    (hret : step.ret = Return.Ok) :
    ((safe_lzma_code m step).1.avail_out = 0 →
      readLoop lenP (step :: rest) m placed r =
        ⟨some (lenP - (safe_lzma_code m step).1.avail_out, none),
          placed + (safe_lzma_code m step).2.2,
          { r with
              engineCalls := r.engineCalls + 1
              codeActions := r.codeActions ++ [r.action]
              engQ := rest
              stream := some (safe_lzma_code m step).1 }⟩) ∧
    ((safe_lzma_code m step).1.avail_out ≠ 0 →
      readLoop lenP (step :: rest) m placed r =
        readLoop lenP rest (safe_lzma_code m step).1
          (placed + (safe_lzma_code m step).2.2)
          { r with
              engineCalls := r.engineCalls + 1
              codeActions := r.codeActions ++ [r.action] }) := by
  have hre : refill m (step :: rest) placed r = Sum.inr (m, r) := by
    unfold refill
    rw [if_neg hin]
  constructor
  · intro hfull
    rw [readLoop]
    simp only [hre, safe_lzma_code_ret, hret, hfull, if_true]
  · intro hnfull
    rw [readLoop]
    simp only [hre, safe_lzma_code_ret, hret, hnfull, if_true, if_false, ite_false]

/-- C5, witness: with three input bytes available and a step that fills the
whole two-byte output window with status Ok, the loop returns two written bytes
and no error at once. -/
theorem readLoop_written_and_ok_branches_witness :
    readLoop 2 [⟨0, 2, Return.Ok⟩] ⟨some 0, 3, some 0, 2⟩ 0 (NewReader [] [] Return.Ok) =
      ⟨some (2, none), 2,
        ⟨[], [], some ⟨some 0, 3, none, 0⟩, Action.Run, none, 0, 1, [Action.Run], 0, false⟩⟩ :=
  (readLoop_written_and_ok_branches 2 ⟨0, 2, Return.Ok⟩ [] ⟨some 0, 3, some 0, 2⟩ 0
    (NewReader [] [] Return.Ok) (by decide) rfl).1 (by decide)

/-- C6: Close always signals success; if a terminal condition was already
recorded, Close changes nothing and performs no release; if none was recorded,
Close records the synthetic reader-closed error, performs the single release of
the stream's lifetime, and every subsequent Read replays the closed condition. -/
theorem close_idempotent_single_release (srcQ : List SrcRes) (engQ : List CStep)
    (initRet : Return) (ops : List Op) :
    (Close (runOps (NewReader srcQ engQ initRet) ops)).1 = none ∧
    ((runOps (NewReader srcQ engQ initRet) ops).lastErr ≠ none →
      (Close (runOps (NewReader srcQ engQ initRet) ops)).2 =
        runOps (NewReader srcQ engQ initRet) ops) ∧
    ((runOps (NewReader srcQ engQ initRet) ops).lastErr = none →
      (Close (runOps (NewReader srcQ engQ initRet) ops)).2.lastErr
          = some Err.readerClosed ∧
      (Close (runOps (NewReader srcQ engQ initRet) ops)).2.releases = 1 ∧
      ∀ lenP, Read (Close (runOps (NewReader srcQ engQ initRet) ops)).2 lenP =
        ⟨some (0, some Err.readerClosed), 0,
          (Close (runOps (NewReader srcQ engQ initRet) ops)).2⟩) := by
  obtain ⟨i1, i2⟩ := runOps_stateInv _ ops (newReader_stateInv srcQ engQ initRet)
  by_cases hle : (runOps (NewReader srcQ engQ initRet) ops).lastErr = none
  · obtain ⟨hrel0, hstream⟩ := i1 hle
    have hcl : Close (runOps (NewReader srcQ engQ initRet) ops) =
        (none, streamClose { runOps (NewReader srcQ engQ initRet) ops with
          lastErr := some Err.readerClosed }) := by
      unfold Close
      rw [if_pos hle]
    have hs2 : ({ runOps (NewReader srcQ engQ initRet) ops with
        lastErr := some Err.readerClosed } : RState).stream ≠ none := hstream
    have hle2 : (Close (runOps (NewReader srcQ engQ initRet) ops)).2.lastErr
        = some Err.readerClosed := by
      rw [hcl]
      rw [streamClose_lastErr]
    refine ⟨by rw [hcl], fun hne => absurd hle hne, fun _ => ⟨hle2, ?_, fun lenP => ?_⟩⟩
    · rw [hcl]
      show (streamClose _).releases = 1
      rw [streamClose_releases_of_live _ hs2]
      simp only []
      omega
    · exact read_stuck _ lenP Err.readerClosed hle2
  · have hcl : Close (runOps (NewReader srcQ engQ initRet) ops) =
        (none, runOps (NewReader srcQ engQ initRet) ops) := by
      unfold Close
      rw [if_neg hle]
    exact ⟨by rw [hcl], fun _ => by rw [hcl], fun h => absurd h hle⟩

/-- C6, witness: closing a freshly opened reader returns nil, records the
reader-closed condition, performs exactly one release, and the next Read
replays the closed condition. -/
theorem close_idempotent_single_release_witness :
    (Close (runOps (NewReader [] [] Return.Ok) [])).1 = none ∧
    (Close (runOps (NewReader [] [] Return.Ok) [])).2.lastErr = some Err.readerClosed ∧
    (Close (runOps (NewReader [] [] Return.Ok) [])).2.releases = 1 ∧
    Read (Close (runOps (NewReader [] [] Return.Ok) [])).2 5 =
      ⟨some (0, some Err.readerClosed), 0, (Close (runOps (NewReader [] [] Return.Ok) [])).2⟩ := by
  have h := close_idempotent_single_release [] [] Return.Ok []
  exact ⟨h.1, (h.2.2 rfl).1, (h.2.2 rfl).2.1, (h.2.2 rfl).2.2 5⟩

/-- C7: the action moves from Run to Finish monotonically (once Finish, always
Finish across all operations), it never changes at all unless the source signals
io.EOF, and on the refill that consumes the io.EOF signal the input window is
set from the accompanying partial byte count, possibly zero, while the action
switches to Finish. -/
theorem action_finish_monotone_on_eof (r : RState) (ops : List Op) (m : LzmaMem)
    (engR : List CStep) (placed n : Nat) (rest : List SrcRes) :
    (r.action = Action.Finish → (runOps r ops).action = Action.Finish) ∧
    ((∀ s ∈ r.srcQ, s.err ≠ some SrcSignal.eof) → (runOps r ops).action = r.action) ∧
    (m.avail_in = 0 → r.srcQ = ⟨n, some SrcSignal.eof⟩ :: rest →
      refill m engR placed r =
        Sum.inr ({ m with next_in := some 0, avail_in := n },
          { r with
              srcQ := rest
              srcReads := r.srcReads + 1
              action := Action.Finish })) := by
  refine ⟨runOps_action_finish r ops, runOps_action_noEof r ops, fun h1 h2 => ?_⟩
  simp only [refill, h1, if_true, h2]

/-- C7, witness: consuming an io.EOF source result with zero bytes sets a
zero-length input window and switches the action to Finish; and with no io.EOF
pending, a close leaves the action at Run. -/
theorem action_finish_monotone_on_eof_witness :
    refill stream_init [] 0 (NewReader [⟨0, some SrcSignal.eof⟩] [] Return.Ok) =
      Sum.inr (⟨some 0, 0, none, 0⟩,
        { NewReader [⟨0, some SrcSignal.eof⟩] [] Return.Ok with
            srcQ := []
            srcReads := 1
            action := Action.Finish }) ∧
    (runOps (NewReader [] [] Return.Ok) [Op.close]).action = Action.Run :=
  ⟨(action_finish_monotone_on_eof (NewReader [⟨0, some SrcSignal.eof⟩] [] Return.Ok)
      [] stream_init [] 0 0 []).2.2 rfl rfl,
   (action_finish_monotone_on_eof (NewReader [] [] Return.Ok)
      [Op.close] stream_init [] 0 0 []).2.1 (by decide)⟩

/-- C9: a source read returning zero bytes with no error and no io.EOF signal
does not switch the action to Finish: the adapter installs a zero-length input
window with the action unchanged at Run, drives the engine with Run, and when
the step returns Ok with output capacity remaining the loop continues with the
input window still empty, so the next iteration polls the source again. -/
theorem zero_byte_source_read_keeps_run (lenP : Nat) (step : CStep) (rest : List CStep)
    (m : LzmaMem) (placed : Nat) (r : RState) (srest : List SrcRes)
    (hsrc : r.srcQ = ⟨0, none⟩ :: srest) (hin : m.avail_in = 0)
    (hret : step.ret = Return.Ok) (hact : r.action = Action.Run) :
    refill m (step :: rest) placed r =
      Sum.inr ({ m with next_in := some 0, avail_in := 0 },
        { r with srcQ := srest, srcReads := r.srcReads + 1 }) ∧
    ({ r with srcQ := srest, srcReads := r.srcReads + 1 } : RState).action = Action.Run ∧
    (safe_lzma_code { m with next_in := some 0, avail_in := 0 } step).1.avail_in = 0 ∧
    ((safe_lzma_code { m with next_in := some 0, avail_in := 0 } step).1.avail_out ≠ 0 →
      readLoop lenP (step :: rest) m placed r =
        readLoop lenP rest (safe_lzma_code { m with next_in := some 0, avail_in := 0 } step).1
          (placed + (safe_lzma_code { m with next_in := some 0, avail_in := 0 } step).2.2)
          { r with
              srcQ := srest
              srcReads := r.srcReads + 1
              engineCalls := r.engineCalls + 1
              codeActions := r.codeActions ++ [Action.Run] }) := by
  have h1 : refill m (step :: rest) placed r =
      Sum.inr ({ m with next_in := some 0, avail_in := 0 },
        { r with srcQ := srest, srcReads := r.srcReads + 1 }) := by
    simp only [refill, hin, if_true, hsrc]
  refine ⟨h1, hact, ?_, fun hnf => ?_⟩
  · rw [safe_lzma_code_avail_in]
    simp
  · rw [readLoop]
    simp only [h1, safe_lzma_code_ret, hret, hnf, if_true, hact, if_false, ite_false]

/-- C9, witness: on a zero-byte no-error source result, a step producing one of
five output bytes with status Ok leaves the loop running with action Run, an
empty input window, and the source polled again on the next iteration. -/
theorem zero_byte_source_read_keeps_run_witness :
    readLoop 5 [⟨0, 1, Return.Ok⟩, ⟨4, 3, Return.Ok⟩] ⟨none, 0, some 0, 5⟩ 0
        (NewReader [⟨0, none⟩, ⟨4, none⟩] [⟨0, 1, Return.Ok⟩, ⟨4, 3, Return.Ok⟩]
          Return.Ok) =
      readLoop 5 [⟨4, 3, Return.Ok⟩] ⟨none, 0, some 1, 4⟩ 1
        ⟨[⟨4, none⟩], [⟨0, 1, Return.Ok⟩, ⟨4, 3, Return.Ok⟩], some stream_init,
          Action.Run, none, 0, 1, [Action.Run], 1, false⟩ :=
  (zero_byte_source_read_keeps_run 5 ⟨0, 1, Return.Ok⟩ [⟨4, 3, Return.Ok⟩]
    ⟨none, 0, some 0, 5⟩ 0
    (NewReader [⟨0, none⟩, ⟨4, none⟩] [⟨0, 1, Return.Ok⟩, ⟨4, 3, Return.Ok⟩] Return.Ok)
    [⟨4, none⟩] rfl rfl rfl rfl).2.2.2 (by decide)

end Xz
